import Mathlib

/-!
# Verification development for `rt_demo.c`

A shallow embedding of the latency sampler (`rt_thread`), the statistics
reducer (`calculate_statistics`) and the CPU placement code (`rt_thread`,
`load_thread`) of `src/rt_demo.c`, followed by theorems about them.

Conventions of the embedding:

* C arrays are total functions `Nat → Int` from index to contents; every
  bound that matters is stated explicitly in the theorems.
* `long long` values are `Int`; the one arithmetic operation whose result can
  leave the 64-bit range (`total_latency += latency`) is wrapped explicitly
  with `wrap_llong`.
* The `int` counters `sample_count`, `isolated_count`, `rcu_nocbs_count` and
  `nohz_full_count` are only ever set to `0` and incremented by the program
  (bounded by `MAX_SAMPLES` resp. `MAX_CPUS`), and are `Nat`.
* Calls into the operating system (`clock_gettime`, `nanosleep`, the volatile
  read of `should_exit`) are inputs of the model: one `cycle_t` per evaluation
  of the loop condition of `rt_thread`.
* The glibc type `cpu_set_t` is a set of CPU numbers below `CPU_SETSIZE`
  (1024); `CPU_SET` and `CPU_ISSET` ignore a CPU number that is not below it.
-/

namespace RtDemo

/-! ## Constants -/

/-- The macro `MAX_SAMPLES`, defined as 10000: the capacity of `latency_samples`. -/
abbrev MAX_SAMPLES : Nat := 10000

/-- The macro `MAX_CPUS`, defined as 256: the capacity of the CPU lists. -/
abbrev MAX_CPUS : Nat := 256

/-- The constant `LLONG_MAX` of `<limits.h>`: `2^63 - 1`. -/
abbrev LLONG_MAX : Int := 9223372036854775807

/-- Two's-complement wrap of an integer into the range of `long long`,
`[-2^63, 2^63)`. -/
def wrap_llong (x : Int) : Int :=
  (x + 9223372036854775808) % 18446744073709551616 - 9223372036854775808

/-! ## Data model -/

/-- The C struct `rt_stats_t`. -/
structure rt_stats_t where
  latency_samples : Nat → Int
  sample_count : Nat
  max_latency : Int
  min_latency : Int
  total_latency : Int
  running : Int

/-- The C struct `cpu_config_t`. -/
structure cpu_config_t where
  isolated_cpus : Nat → Int
  rcu_nocbs_cpus : Nat → Int
  nohz_full_cpus : Nat → Int
  isolated_count : Nat
  rcu_nocbs_count : Nat
  nohz_full_count : Nat
  total_cpus : Int

/-- Array store `a[i] = v`. -/
def arr_set (a : Nat → Int) (i : Nat) (v : Int) : Nat → Int :=
  fun k => if k = i then v else a k

/-- The recorded prefix `latency_samples[0 .. sample_count)` as a list. -/
def stored (s : rt_stats_t) : List Int :=
  (List.range s.sample_count).map s.latency_samples

/-! ## The sampler: `rt_thread` -/

/-- The static initialiser `static rt_stats_t stats = {0};`. -/
def stats_zero : rt_stats_t :=
  { latency_samples := fun _ => 0
    sample_count := 0
    max_latency := 0
    min_latency := 0
    total_latency := 0
    running := 0 }

/-- The assignments of `rt_thread` just before its loop:
`stats.min_latency = LLONG_MAX; stats.max_latency = 0; stats.running = 1;`. -/
def rt_thread_init (s : rt_stats_t) : rt_stats_t :=
  { s with min_latency := LLONG_MAX, max_latency := 0, running := 1 }

/-- Body of the `while` loop of `rt_thread`, from the point where `latency`
has been computed: the sample is stored only when `latency > 0`. -/
def rt_cycle (s : rt_stats_t) (latency : Int) : rt_stats_t :=
  if latency > 0 then
    let s1 := { s with latency_samples := arr_set s.latency_samples s.sample_count latency }
    let s2 := { s1 with total_latency := wrap_llong (s1.total_latency + latency) }
    let s3 := if latency > s2.max_latency then { s2 with max_latency := latency } else s2
    let s4 := if latency < s3.min_latency then { s3 with min_latency := latency } else s3
    { s4 with sample_count := s4.sample_count + 1 }
  else s

/-- What the environment supplies for one evaluation of the loop condition of
`rt_thread`: the value read from `should_exit`, and the latency
`actual_wake - expected_wake` that the cycle measures if it is run. -/
structure cycle_t where
  should_exit : Bool
  latency : Int

/-- The sampler together with a count of the loop bodies it has executed. -/
structure sampler_t where
  stats : rt_stats_t
  cycles : Nat

/-- The loop condition `!should_exit && stats.sample_count < MAX_SAMPLES`. -/
def loop_cond (should_exit : Bool) (s : rt_stats_t) : Bool :=
  !should_exit && decide (s.sample_count < MAX_SAMPLES)

/-- The `while` loop of `rt_thread` driven by a finite trace of the
environment. When the condition fails the loop is left, `stats.running = 0`
is executed and the rest of the trace is not consumed. When the trace ends
first, the result is the state at the next evaluation of the condition. -/
def rt_loop : List cycle_t → sampler_t → sampler_t
  | [], σ => σ
  | c :: rest, σ =>
    if loop_cond c.should_exit σ.stats then
      rt_loop rest { stats := rt_cycle σ.stats c.latency, cycles := σ.cycles + 1 }
    else
      { σ with stats := { σ.stats with running := 0 } }

/-- The state of the sampler when `rt_thread` reaches its loop. -/
def sampler_start : sampler_t :=
  { stats := rt_thread_init stats_zero, cycles := 0 }

/-- A run of the sampler in which the stop signal is never set. -/
def no_stop (latencies : List Int) : List cycle_t :=
  latencies.map fun l => { should_exit := false, latency := l }

/-! ## The reducer: `calculate_statistics` -/

/-- One execution of the body of the inner sort loop:
`if (a[i] > a[j]) { temp = a[i]; a[i] = a[j]; a[j] = temp; }`. -/
def sort_step (a : Nat → Int) (i j : Nat) : Nat → Int :=
  if a i > a j then
    let temp := a i
    arr_set (arr_set a i (a j)) j temp
  else a

/-- The inner loop `for (j = ...; j < n; j++)` with `k` iterations left. -/
def sort_inner (i : Nat) : Nat → Nat → (Nat → Int) → (Nat → Int)
  | 0, _, a => a
  | k + 1, j, a => sort_inner i k (j + 1) (sort_step a i j)

/-- The outer loop `for (i = ...; i < n - 1; i++)` with `k` iterations left;
each iteration runs the inner loop from `j = i + 1` up to `n`. -/
def sort_outer (n : Nat) : Nat → Nat → (Nat → Int) → (Nat → Int)
  | 0, _, a => a
  | k + 1, i, a => sort_outer n k (i + 1) (sort_inner i (n - (i + 1)) (i + 1) a)

/-- The nested-loop sort of `calculate_statistics` on the first `n` cells. -/
def sort_samples (n : Nat) (a : Nat → Int) : Nat → Int :=
  sort_outer n (n - 1) 0 a

/-- Numerator over `2^53` of the binary64 nearest (ties to even) to the
decimal literal `a / b`, for `1/2 ≤ a / b < 1`. -/
def double_literal (a b : Nat) : Nat :=
  let q := a * 2 ^ 53 / b
  let r := a * 2 ^ 53 % b
  if 2 * r > b ∨ (2 * r = b ∧ q % 2 = 1) then q + 1 else q

/-- The double constant `0.95`, as a numerator over `2^53`. -/
def DBL_0_95 : Nat := double_literal 95 100

/-- The double constant `0.99`, as a numerator over `2^53`. -/
def DBL_0_99 : Nat := double_literal 99 100

/-- The number of low bits to drop from `x` to leave at most 53 significant
bits, for `x < 2^106` (the exact product of two 53-bit significands). -/
def excess_bits : Nat → Nat → Nat
  | 0, _ => 0
  | fuel + 1, x => if x < 2 ^ 53 then 0 else excess_bits fuel (x / 2) + 1

/-- Rounding of a natural number `x < 2^106` to 53 significant bits, ties to
even: the rounding step of an IEEE-754 binary64 multiplication whose exact
result is `x / 2^53`, returned again as a numerator over `2^53`. -/
def round_binary64 (x : Nat) : Nat :=
  let d := excess_bits 53 x
  let q := x / 2 ^ d
  let r := x % 2 ^ d
  if 2 * r > 2 ^ d ∨ (2 * r = 2 ^ d ∧ q % 2 = 1) then (q + 1) * 2 ^ d else q * 2 ^ d

/-- The index expression `(int)(stats.sample_count * f)` for a double
constant `f` given as a numerator over `2^53`: `sample_count` converts to
double exactly, the product is rounded to binary64, and the cast truncates. -/
def percentile_index (sample_count f : Nat) : Nat :=
  round_binary64 (sample_count * f) / 2 ^ 53

/-- The three outcomes of the performance classification. -/
inductive perf_t where
  | EXCELLENT
  | GOOD
  | POOR
  deriving DecidableEq, Repr

/-- The values `calculate_statistics` prints. -/
structure statistics_t where
  samples : Nat
  min : Int
  avg : Int
  max : Int
  p95 : Int
  p99 : Int
  performance : perf_t
  deriving DecidableEq, Repr

/-- What `calculate_statistics` reports: "No samples collected", or the
statistics block. -/
inductive report_t where
  | no_samples
  | statistics (r : statistics_t)
  deriving DecidableEq, Repr

/-- The division `a / b` of C on `long long`: truncating, and undefined
(`none`) for a zero divisor. -/
def ll_div (a b : Int) : Option Int :=
  if b = 0 then none else some (Int.tdiv a b)

/-- The classification by `max_latency` at the end of `calculate_statistics`. -/
def classify (max_latency : Int) : perf_t :=
  if max_latency < 100000 then perf_t.EXCELLENT
  else if max_latency < 1000000 then perf_t.GOOD
  else perf_t.POOR

/-- The function `calculate_statistics`: the global `stats` after the call
and the report, or `none` when a division by zero is executed. -/
def calculate_statistics (s : rt_stats_t) : Option (rt_stats_t × report_t) :=
  if s.sample_count = 0 then
    some (s, report_t.no_samples)
  else
    let s1 := { s with latency_samples := sort_samples s.sample_count s.latency_samples }
    match ll_div s1.total_latency s1.sample_count with
    | none => none
    | some avg =>
      let p95 := s1.latency_samples (percentile_index s1.sample_count DBL_0_95)
      let p99 := s1.latency_samples (percentile_index s1.sample_count DBL_0_99)
      some (s1, report_t.statistics
        { samples := s1.sample_count
          min := s1.min_latency
          avg := avg
          max := s1.max_latency
          p95 := p95
          p99 := p99
          performance := classify s1.max_latency })

/-- The percentile index of the specification: `floor(count * num / den)`
clamped to `[0, count - 1]`. -/
def spec_percentile_index (count num den : Nat) : Nat :=
  min (count * num / den) (count - 1)

/-! ## CPU placement -/

/-- The constant `CPU_SETSIZE` of glibc `<sched.h>`: the number of CPUs a
`cpu_set_t` has a bit for. -/
abbrev CPU_SETSIZE : Nat := 1024

/-- The type `cpu_set_t` of glibc: a mask with one bit for each of the CPUs
`0 .. CPU_SETSIZE - 1`, as the set of CPU numbers whose bit is set. -/
abbrev cpu_set_t := Finset (Fin CPU_SETSIZE)

/-- The glibc operation `CPU_ZERO(&set)`: no bit set. -/
def CPU_ZERO : cpu_set_t := ∅

/-- The glibc operation `CPU_SET(cpu, &set)`: sets the bit of `cpu`, and does
nothing when `cpu` is not below `CPU_SETSIZE`. -/
def CPU_SET (cpu : Nat) (set : cpu_set_t) : cpu_set_t :=
  if h : cpu < CPU_SETSIZE then insert ⟨cpu, h⟩ set else set

/-- The glibc test `CPU_ISSET(c, &set)` for an `int` argument: false for a
negative `c` and for `c` not below `CPU_SETSIZE`. -/
def CPU_ISSET (c : Int) (set : cpu_set_t) : Bool :=
  if h : 0 ≤ c ∧ c.toNat < CPU_SETSIZE then decide ((⟨c.toNat, h.2⟩ : Fin CPU_SETSIZE) ∈ set)
  else false

/-- The CPU chosen at the start of `rt_thread` ("Choose best CPU for RT"). -/
def rt_cpu (cfg : cpu_config_t) : Int :=
  if cfg.isolated_count > 0 then cfg.isolated_cpus 0
  else if cfg.rcu_nocbs_count > 0 then cfg.rcu_nocbs_cpus 0
  else cfg.total_cpus - 1

/-- The inner loop of `load_thread` with `k` iterations left: the final value
of `is_isolated` for `cpu`, scanning `isolated_cpus` from index `i` and
leaving at the first match. -/
def is_isolated (cfg : cpu_config_t) (cpu : Int) : Nat → Nat → Bool
  | 0, _ => false
  | k + 1, i => if cpu = cfg.isolated_cpus i then true else is_isolated cfg cpu k (i + 1)

/-- The outer loop of `load_thread` with `k` iterations left. -/
def load_cpuset_loop (cfg : cpu_config_t) : Nat → Nat → cpu_set_t → cpu_set_t
  | 0, _, cpuset => cpuset
  | k + 1, cpu, cpuset =>
    load_cpuset_loop cfg k (cpu + 1)
      (if !is_isolated cfg cpu cfg.isolated_count 0 then CPU_SET cpu cpuset else cpuset)

/-- The CPU set that `load_thread` passes to `sched_setaffinity`:
`CPU_ZERO`, then the loop over `cpu = 0 .. total_cpus - 1`. -/
def load_cpuset (cfg : cpu_config_t) : cpu_set_t :=
  load_cpuset_loop cfg cfg.total_cpus.toNat 0 CPU_ZERO


/-- The topology of end-to-end scenario 1: isolated CPUs 4 and 5, no
no-callback CPU, eight CPUs in total; all other cells as zero-initialised. -/
def scenario_topology : cpu_config_t :=
  { isolated_cpus := fun k => if k = 0 then 4 else if k = 1 then 5 else 0
    rcu_nocbs_cpus := fun _ => 0
    nohz_full_cpus := fun _ => 0
    isolated_count := 2
    rcu_nocbs_count := 0
    nohz_full_count := 0
    total_cpus := 8 }

/-- A topology with more CPUs than a `cpu_set_t` has bits: 1030 CPUs, none
isolated; all other cells as zero-initialised. -/
def large_topology : cpu_config_t :=
  { isolated_cpus := fun _ => 0
    rcu_nocbs_cpus := fun _ => 0
    nohz_full_cpus := fun _ => 0
    isolated_count := 0
    rcu_nocbs_count := 0
    nohz_full_count := 0
    total_cpus := 1030 }

/-! ## Lemmas on the sampler -/

theorem rt_cycle_nonpos (s : rt_stats_t) (latency : Int) (h : latency ≤ 0) :
    rt_cycle s latency = s := by
  unfold rt_cycle
  rw [if_neg (by omega)]

theorem rt_cycle_count (s : rt_stats_t) (latency : Int) :
    (rt_cycle s latency).sample_count =
      s.sample_count + (if 0 < latency then 1 else 0) := by
  unfold rt_cycle
  by_cases h : latency > 0
  · simp only [h, if_true]
    split_ifs <;> rfl
  · have h0 : ¬ 0 < latency := h
    simp [h, h0]

theorem rt_cycle_running (s : rt_stats_t) (latency : Int) :
    (rt_cycle s latency).running = s.running := by
  unfold rt_cycle
  by_cases h : latency > 0
  · simp only [h, if_true]
    split_ifs <;> rfl
  · simp [h]

theorem rt_cycle_samples (s : rt_stats_t) (latency : Int) (h : 0 < latency) :
    (rt_cycle s latency).latency_samples =
      arr_set s.latency_samples s.sample_count latency := by
  unfold rt_cycle
  simp only [gt_iff_lt, h, if_true]
  split_ifs <;> rfl

theorem rt_cycle_total (s : rt_stats_t) (latency : Int) (h : 0 < latency) :
    (rt_cycle s latency).total_latency = wrap_llong (s.total_latency + latency) := by
  unfold rt_cycle
  simp only [gt_iff_lt, h, if_true]
  split_ifs <;> rfl

theorem rt_cycle_max (s : rt_stats_t) (latency : Int) (h : 0 < latency) :
    (rt_cycle s latency).max_latency = max s.max_latency latency := by
  unfold rt_cycle
  simp only [gt_iff_lt, h, if_true]
  split_ifs with h1 h2 h2 <;> simp only [] at * <;> omega

theorem rt_cycle_min (s : rt_stats_t) (latency : Int) (h : 0 < latency) :
    (rt_cycle s latency).min_latency = min s.min_latency latency := by
  unfold rt_cycle
  simp only [gt_iff_lt, h, if_true]
  split_ifs with h1 h2 h2 <;> simp only [] at * <;> omega

theorem map_arr_set_range (a : Nat → Int) (n : Nat) (v : Int) :
    (List.range n).map (arr_set a n v) = (List.range n).map a := by
  apply List.map_congr_left
  intro k hk
  have : k ≠ n := by
    have := List.mem_range.mp hk
    omega
  simp [arr_set, this]

theorem rt_cycle_stored (s : rt_stats_t) (latency : Int) (h : 0 < latency) :
    stored (rt_cycle s latency) = stored s ++ [latency] := by
  unfold stored
  rw [rt_cycle_count, rt_cycle_samples s latency h, if_pos h, List.range_succ,
    List.map_append, map_arr_set_range]
  simp [arr_set]

/-- A property of `stats` that every executed loop body and the final
`stats.running = 0` preserve holds after the loop. -/
theorem rt_loop_preserves (P : rt_stats_t → Prop)
    (hcycle : ∀ s latency, s.sample_count < MAX_SAMPLES → P s → P (rt_cycle s latency))
    (hexit : ∀ s, P s → P { s with running := 0 }) :
    ∀ (trace : List cycle_t) (σ : sampler_t), P σ.stats → P (rt_loop trace σ).stats := by
  intro trace
  induction trace with
  | nil => intro σ h; exact h
  | cons c rest ih =>
    intro σ h
    unfold rt_loop
    by_cases hc : loop_cond c.should_exit σ.stats = true
    · rw [if_pos hc]
      apply ih
      apply hcycle _ _ _ h
      unfold loop_cond at hc
      simp only [Bool.and_eq_true, decide_eq_true_eq] at hc
      exact hc.2
    · rw [if_neg hc]
      exact hexit _ h


theorem wrap_llong_add (a b : Int) :
    wrap_llong (wrap_llong a + b) = wrap_llong (a + b) := by
  unfold wrap_llong
  omega

theorem wrap_llong_of_range (a : Int) (h0 : 0 ≤ a) (h1 : a < 9223372036854775808) :
    wrap_llong a = a := by
  unfold wrap_llong
  omega

/-- The facts about `stats` that hold at every evaluation of the loop
condition of `rt_thread`. -/
theorem rt_loop_invariant (trace : List cycle_t) :
    let s := (rt_loop trace sampler_start).stats
    (∀ v ∈ stored s, 0 < v) ∧
    s.total_latency = wrap_llong (stored s).sum ∧
    ((s.sample_count = 0 → s.max_latency = 0) ∧
      (0 < s.sample_count → s.max_latency ∈ stored s) ∧
      (∀ v ∈ stored s, v ≤ s.max_latency)) ∧
    ((s.min_latency = LLONG_MAX ∨ s.min_latency ∈ stored s) ∧
      (∀ v ∈ stored s, s.min_latency ≤ v)) := by
  apply rt_loop_preserves
    (fun s => (∀ v ∈ stored s, 0 < v) ∧
      s.total_latency = wrap_llong (stored s).sum ∧
      ((s.sample_count = 0 → s.max_latency = 0) ∧
        (0 < s.sample_count → s.max_latency ∈ stored s) ∧
        (∀ v ∈ stored s, v ≤ s.max_latency)) ∧
      ((s.min_latency = LLONG_MAX ∨ s.min_latency ∈ stored s) ∧
        (∀ v ∈ stored s, s.min_latency ≤ v)))
  · intro s latency _ h
    by_cases hl : 0 < latency
    · obtain ⟨hpos, htot, ⟨hmax0, hmaxin, hmaxub⟩, ⟨hminin, hminlb⟩⟩ := h
      have hst := rt_cycle_stored s latency hl
      refine ⟨?_, ?_, ⟨?_, ?_, ?_⟩, ⟨?_, ?_⟩⟩
      · intro v hv
        rw [hst, List.mem_append, List.mem_singleton] at hv
        rcases hv with hv | hv
        · exact hpos v hv
        · omega
      · rw [rt_cycle_total s latency hl, hst, htot, wrap_llong_add]
        simp
      · intro h0
        rw [rt_cycle_count, if_pos hl] at h0
        omega
      · intro _
        rw [rt_cycle_max s latency hl, hst, List.mem_append, List.mem_singleton]
        by_cases hc : s.max_latency ≤ latency
        · right; omega
        · left
          rw [max_eq_left (by omega)]
          apply hmaxin
          by_contra h0
          have := hmax0 (by omega)
          omega
      · intro v hv
        rw [rt_cycle_max s latency hl]
        rw [hst, List.mem_append, List.mem_singleton] at hv
        rcases hv with hv | hv
        · have := hmaxub v hv; omega
        · omega
      · rw [rt_cycle_min s latency hl, hst]
        by_cases hc : latency ≤ s.min_latency
        · right
          rw [min_eq_right hc]
          simp
        · rw [min_eq_left (by omega)]
          rcases hminin with hm | hm
          · left; exact hm
          · right; simp [hm]
      · intro v hv
        rw [rt_cycle_min s latency hl]
        rw [hst, List.mem_append, List.mem_singleton] at hv
        rcases hv with hv | hv
        · have := hminlb v hv; omega
        · omega
    · rw [rt_cycle_nonpos s latency (by omega)]
      exact h
  · intro s h
    exact h
  · simp [sampler_start, rt_thread_init, stats_zero, stored, wrap_llong]

theorem sum_le_of_pos (l : List Int) (h : ∀ v ∈ l, 0 < v) :
    0 ≤ l.sum ∧ ∀ v ∈ l, v ≤ l.sum := by
  induction l with
  | nil => simp
  | cons x xs ih =>
    have hx : 0 < x := h x (by simp)
    have ih2 := ih (fun v hv => h v (by simp [hv]))
    refine ⟨by simp; omega, ?_⟩
    intro v hv
    simp only [List.sum_cons]
    rcases List.mem_cons.mp hv with hv | hv
    · omega
    · have := ih2.2 v hv; omega

/-- C1: from the empty buffer, after any trace of cycles every stored sample is
strictly positive, and a cycle whose latency is `≤ 0` leaves `stats` (count,
total, min, max and samples) as it was. -/
theorem stored_samples_positive (trace : List cycle_t) :
    (∀ i, i < (rt_loop trace sampler_start).stats.sample_count →
      0 < (rt_loop trace sampler_start).stats.latency_samples i) ∧
    (∀ (s : rt_stats_t) (latency : Int), latency ≤ 0 → rt_cycle s latency = s) := by
  refine ⟨?_, rt_cycle_nonpos⟩
  intro i hi
  apply (rt_loop_invariant trace).1
  unfold stored
  exact List.mem_map.mpr ⟨i, List.mem_range.mpr hi, rfl⟩

theorem stored_samples_positive_witness :
    0 < (rt_loop (no_stop [5, 0, -3, 7, 2]) sampler_start).stats.latency_samples 1 ∧
    rt_cycle (rt_loop (no_stop [5]) sampler_start).stats (-3)
      = (rt_loop (no_stop [5]) sampler_start).stats :=
  ⟨(stored_samples_positive (no_stop [5, 0, -3, 7, 2])).1 1 (by decide),
   (stored_samples_positive []).2 _ (-3) (by decide)⟩

/-- C3: after any trace of cycles from the initial state, if the sum of the
stored samples fits in 64 bits then `total_latency` is that sum, and when
`sample_count > 0`, `min_latency` is the minimum and `max_latency` the maximum
of the stored samples. -/
theorem running_aggregates_consistent (trace : List cycle_t)
    (hsum : (stored (rt_loop trace sampler_start).stats).sum < 9223372036854775808) :
    (rt_loop trace sampler_start).stats.total_latency
      = (stored (rt_loop trace sampler_start).stats).sum ∧
    (0 < (rt_loop trace sampler_start).stats.sample_count →
      ((rt_loop trace sampler_start).stats.min_latency
          ∈ stored (rt_loop trace sampler_start).stats ∧
        ∀ v ∈ stored (rt_loop trace sampler_start).stats,
          (rt_loop trace sampler_start).stats.min_latency ≤ v) ∧
      ((rt_loop trace sampler_start).stats.max_latency
          ∈ stored (rt_loop trace sampler_start).stats ∧
        ∀ v ∈ stored (rt_loop trace sampler_start).stats,
          v ≤ (rt_loop trace sampler_start).stats.max_latency)) := by
  obtain ⟨hpos, htot, ⟨_, hmaxin, hmaxub⟩, ⟨hminin, hminlb⟩⟩ := rt_loop_invariant trace
  have hs := sum_le_of_pos _ hpos
  refine ⟨?_, ?_⟩
  · rw [htot]
    exact wrap_llong_of_range _ hs.1 hsum
  · intro hc
    refine ⟨⟨?_, hminlb⟩, ⟨hmaxin hc, hmaxub⟩⟩
    rcases hminin with hm | hm
    · have hin := hmaxin hc
      have h1 := hminlb _ hin
      have h2 := hs.2 _ hin
      have : (rt_loop trace sampler_start).stats.min_latency
          = (rt_loop trace sampler_start).stats.max_latency := by
        have hL : LLONG_MAX = 9223372036854775807 := rfl
        rw [hm, hL] at h1
        rw [hm, hL]
        omega
      rw [this]
      exact hin
    · exact hm

theorem running_aggregates_consistent_witness :
    (rt_loop (no_stop [5, 0, -3, 7, 2]) sampler_start).stats.total_latency
      = (stored (rt_loop (no_stop [5, 0, -3, 7, 2]) sampler_start).stats).sum :=
  (running_aggregates_consistent (no_stop [5, 0, -3, 7, 2]) (by decide)).1


theorem foldl_cycle_count (lats : List Int) (s : rt_stats_t) :
    (lats.foldl rt_cycle s).sample_count
      = s.sample_count + lats.countP (fun l => decide (0 < l)) := by
  induction lats generalizing s with
  | nil => simp
  | cons x xs ih =>
    rw [List.foldl_cons, ih, rt_cycle_count, List.countP_cons]
    by_cases hx : 0 < x <;> simp [hx] <;> omega

theorem foldl_cycle_running (lats : List Int) (s : rt_stats_t) :
    (lats.foldl rt_cycle s).running = s.running := by
  induction lats generalizing s with
  | nil => simp
  | cons x xs ih => rw [List.foldl_cons, ih, rt_cycle_running]

/-- With the stop signal never set, the loop runs every cycle of a stretch of
the trace during which fewer than `MAX_SAMPLES` samples are stored. -/
theorem rt_loop_no_stop_append (pre rest : List Int) (σ : sampler_t)
    (h : σ.stats.sample_count + pre.countP (fun l => decide (0 < l)) < MAX_SAMPLES + 1)
    (hlast : pre = [] ∨ σ.stats.sample_count
      + pre.dropLast.countP (fun l => decide (0 < l)) < MAX_SAMPLES) :
    rt_loop (no_stop (pre ++ rest)) σ
      = rt_loop (no_stop rest)
          { stats := pre.foldl rt_cycle σ.stats, cycles := σ.cycles + pre.length } := by
  induction pre generalizing σ with
  | nil => simp
  | cons x xs ih =>
    have hlast2 : σ.stats.sample_count
        + (x :: xs).dropLast.countP (fun l => decide (0 < l)) < MAX_SAMPLES := by
      rcases hlast with h0 | h0
      · simp at h0
      · exact h0
    have hc : loop_cond false σ.stats = true := by
      unfold loop_cond
      simp only [Bool.not_false, Bool.true_and, decide_eq_true_eq]
      omega
    have hstep : rt_loop (no_stop ((x :: xs) ++ rest)) σ
        = rt_loop (no_stop (xs ++ rest))
            { stats := rt_cycle σ.stats x, cycles := σ.cycles + 1 } := by
      simp only [no_stop, List.cons_append, List.map_cons]
      rw [rt_loop, if_pos hc]
    rw [hstep, ih]
    · simp only [List.foldl_cons, List.length_cons]
      congr 2
      omega
    · simp only [rt_cycle_count]
      rw [List.countP_cons] at h
      by_cases hx : 0 < x <;> simp [hx] at h ⊢ <;> omega
    · cases xs with
      | nil => left; rfl
      | cons y ys =>
        right
        simp only [rt_cycle_count]
        rw [List.dropLast_cons₂, List.countP_cons] at hlast2
        by_cases hx : 0 < x <;> simp [hx] at hlast2 ⊢ <;> omega


/-- At every evaluation of the loop condition `sample_count ≤ MAX_SAMPLES`,
and no cell at or beyond `sample_count` has been written. -/
theorem rt_loop_bounds (trace : List cycle_t) :
    (rt_loop trace sampler_start).stats.sample_count ≤ MAX_SAMPLES ∧
    ∀ i, (rt_loop trace sampler_start).stats.sample_count ≤ i →
      (rt_loop trace sampler_start).stats.latency_samples i = 0 := by
  apply rt_loop_preserves
    (fun s => s.sample_count ≤ MAX_SAMPLES ∧
      ∀ i, s.sample_count ≤ i → s.latency_samples i = 0)
  · intro s latency hlt h
    by_cases hl : 0 < latency
    · refine ⟨?_, ?_⟩
      · rw [rt_cycle_count, if_pos hl]
        omega
      · intro i hi
        rw [rt_cycle_count, if_pos hl] at hi
        rw [rt_cycle_samples s latency hl]
        have hne : i ≠ s.sample_count := by omega
        simp only [arr_set, hne, if_false]
        exact h.2 i (by omega)
    · rw [rt_cycle_nonpos s latency (by omega)]
      exact h
  · intro s h
    exact h
  · simp [sampler_start, rt_thread_init, stats_zero]

/-- C2: with the stop signal never set, `sample_count` never exceeds
`MAX_SAMPLES` and nothing is written at an index `≥ MAX_SAMPLES`; while fewer
than `MAX_SAMPLES` positive latencies have occurred every cycle is run and the
sampler is still running; and once a cycle records the `MAX_SAMPLES`-th positive
latency, that cycle is the last one run, whatever follows in the trace, and the
next evaluation of the loop condition leaves the loop. -/
theorem capacity_bound_and_exit (lats : List Int) :
    (rt_loop (no_stop lats) sampler_start).stats.sample_count ≤ MAX_SAMPLES ∧
    (∀ i, MAX_SAMPLES ≤ i →
      (rt_loop (no_stop lats) sampler_start).stats.latency_samples i = 0) ∧
    (lats.countP (fun l => decide (0 < l)) < MAX_SAMPLES →
      (rt_loop (no_stop lats) sampler_start).cycles = lats.length ∧
      (rt_loop (no_stop lats) sampler_start).stats.running = 1 ∧
      (rt_loop (no_stop lats) sampler_start).stats.sample_count
        = lats.countP (fun l => decide (0 < l))) ∧
    (∀ (pre : List Int) (x : Int) (post : List Int),
      lats = pre ++ x :: post → 0 < x →
      pre.countP (fun l => decide (0 < l)) + 1 = MAX_SAMPLES →
      (rt_loop (no_stop lats) sampler_start).cycles = pre.length + 1 ∧
      (rt_loop (no_stop lats) sampler_start).stats.sample_count = MAX_SAMPLES ∧
      (post ≠ [] → (rt_loop (no_stop lats) sampler_start).stats.running = 0) ∧
      (post = [] → (rt_loop (no_stop lats) sampler_start).stats.running = 1)) := by
  have hb := rt_loop_bounds (no_stop lats)
  refine ⟨hb.1, fun i hi => hb.2 i (le_trans hb.1 hi), ?_, ?_⟩
  · intro hlt
    have hdl : lats.dropLast.countP (fun l => decide (0 < l))
        ≤ lats.countP (fun l => decide (0 < l)) :=
      List.Sublist.countP_le _ (List.dropLast_sublist lats)
    have hrun := rt_loop_no_stop_append lats [] sampler_start
      (by simp only [sampler_start, rt_thread_init, stats_zero]; omega)
      (Or.inr (by simp only [sampler_start, rt_thread_init, stats_zero]; omega))
    rw [List.append_nil] at hrun
    rw [hrun]
    simp only [no_stop, List.map_nil, rt_loop]
    refine ⟨by simp [sampler_start], ?_, ?_⟩
    · rw [foldl_cycle_running]; rfl
    · rw [foldl_cycle_count]; simp [sampler_start, rt_thread_init, stats_zero]
  · intro pre x post hl hx hcnt
    have hsplit : lats = (pre ++ [x]) ++ post := by simp [hl]
    have hcp : (pre ++ [x]).countP (fun l => decide (0 < l)) = MAX_SAMPLES := by
      rw [List.countP_append]
      simp [hx]
      omega
    have hrun := rt_loop_no_stop_append (pre ++ [x]) post sampler_start
      (by rw [hcp]; simp [sampler_start, rt_thread_init, stats_zero])
      (Or.inr (by
        rw [List.dropLast_concat]
        simp only [sampler_start, rt_thread_init, stats_zero]
        omega))
    rw [hsplit, hrun]
    have hfull : ((pre ++ [x]).foldl rt_cycle sampler_start.stats).sample_count
        = MAX_SAMPLES := by
      rw [foldl_cycle_count, hcp]
      simp [sampler_start, rt_thread_init, stats_zero]
    have hrunning : ((pre ++ [x]).foldl rt_cycle sampler_start.stats).running = 1 := by
      rw [foldl_cycle_running]; rfl
    cases post with
    | nil =>
      simp only [no_stop, List.map_nil, rt_loop]
      exact ⟨by simp [sampler_start], hfull, fun h => absurd rfl h, fun _ => hrunning⟩
    | cons y ys =>
      have hc : loop_cond false ((pre ++ [x]).foldl rt_cycle sampler_start.stats) = false := by
        unfold loop_cond
        rw [hfull]
        rfl
      simp only [no_stop, List.map_cons, rt_loop, hc]
      exact ⟨by simp [sampler_start], hfull, fun _ => rfl, fun h => by simp at h⟩

theorem capacity_bound_and_exit_witness :
    (rt_loop (no_stop (List.replicate 9999 1 ++ 1 :: [-4, 8])) sampler_start).cycles
      = (List.replicate 9999 (1 : Int)).length + 1 ∧
    (rt_loop (no_stop (List.replicate 9999 1 ++ 1 :: [-4, 8])) sampler_start).stats.sample_count
      = MAX_SAMPLES ∧
    (([-4, 8] : List Int) ≠ [] →
      (rt_loop (no_stop (List.replicate 9999 1 ++ 1 :: [-4, 8])) sampler_start).stats.running
        = 0) ∧
    (([-4, 8] : List Int) = [] →
      (rt_loop (no_stop (List.replicate 9999 1 ++ 1 :: [-4, 8])) sampler_start).stats.running
        = 1) :=
  (capacity_bound_and_exit (List.replicate 9999 1 ++ 1 :: [-4, 8])).2.2.2
    (List.replicate 9999 1) 1 [-4, 8] rfl (by decide)
    (by rw [List.countP_replicate]; rfl)


/-! ## Lemmas on the reducer -/

theorem ll_div_of_ne_zero (a b : Int) (h : b ≠ 0) : ll_div a b = some (Int.tdiv a b) := by
  unfold ll_div
  rw [if_neg h]

/-- The result of `calculate_statistics` on a non-empty buffer. -/
theorem calculate_statistics_of_pos (s : rt_stats_t) (h : 1 ≤ s.sample_count) :
    calculate_statistics s =
      some ({ s with latency_samples := sort_samples s.sample_count s.latency_samples },
        report_t.statistics
          { samples := s.sample_count
            min := s.min_latency
            avg := Int.tdiv s.total_latency s.sample_count
            max := s.max_latency
            p95 := sort_samples s.sample_count s.latency_samples
              (percentile_index s.sample_count DBL_0_95)
            p99 := sort_samples s.sample_count s.latency_samples
              (percentile_index s.sample_count DBL_0_99)
            performance := classify s.max_latency }) := by
  unfold calculate_statistics
  have h0 : s.sample_count ≠ 0 := by omega
  have hz : (s.sample_count : Int) ≠ 0 := by omega
  rw [if_neg h0]
  simp only [ll_div_of_ne_zero _ _ hz]

theorem sum_bounds (l : List Int) (lo hi : Int) (h : ∀ v ∈ l, lo ≤ v ∧ v ≤ hi) :
    lo * l.length ≤ l.sum ∧ l.sum ≤ hi * l.length := by
  induction l with
  | nil => simp
  | cons x xs ih =>
    have hx := h x (by simp)
    have ih2 := ih (fun v hv => h v (by simp [hv]))
    simp only [List.sum_cons, List.length_cons, Nat.cast_add, Nat.cast_one]
    constructor <;> nlinarith [ih2.1, ih2.2, hx.1, hx.2]

theorem stored_length (s : rt_stats_t) : (stored s).length = s.sample_count := by
  simp [stored]

/-- C4: for a non-empty buffer produced by the sampler loop whose sum fits in
64 bits, `calculate_statistics` reports `avg = total_latency / sample_count`
(truncating division) together with `min_latency` and `max_latency`, and
`min_latency ≤ avg ≤ max_latency`. -/
theorem average_between_min_and_max (trace : List cycle_t)
    (hcount : 1 ≤ (rt_loop trace sampler_start).stats.sample_count)
    (hsum : (stored (rt_loop trace sampler_start).stats).sum < 9223372036854775808) :
    ∃ s1 r, calculate_statistics (rt_loop trace sampler_start).stats
        = some (s1, report_t.statistics r) ∧
      r.avg = Int.tdiv (rt_loop trace sampler_start).stats.total_latency
        (rt_loop trace sampler_start).stats.sample_count ∧
      r.min = (rt_loop trace sampler_start).stats.min_latency ∧
      r.max = (rt_loop trace sampler_start).stats.max_latency ∧
      r.min ≤ r.avg ∧ r.avg ≤ r.max := by
  refine ⟨_, _, calculate_statistics_of_pos _ hcount, rfl, rfl, rfl, ?_⟩
  simp only []
  obtain ⟨hpos, htot, ⟨_, _, hmaxub⟩, ⟨_, hminlb⟩⟩ := rt_loop_invariant trace
  have hs := sum_le_of_pos _ hpos
  have htotal := wrap_llong_of_range _ hs.1 hsum
  rw [htot, htotal]
  have hb := sum_bounds _ _ _ (fun v hv => ⟨hminlb v hv, hmaxub v hv⟩)
  rw [stored_length] at hb
  have hn : (0 : Int) < ((rt_loop trace sampler_start).stats.sample_count : Int) := by
    omega
  rw [Int.tdiv_eq_ediv hs.1 (le_of_lt hn)]
  exact ⟨Int.le_ediv_of_mul_le hn hb.1, Int.ediv_le_of_le_mul hn hb.2⟩

theorem average_between_min_and_max_witness :
    ∃ s1 r, calculate_statistics (rt_loop (no_stop [5, 0, -3, 7, 2]) sampler_start).stats
        = some (s1, report_t.statistics r) ∧
      r.avg = Int.tdiv (rt_loop (no_stop [5, 0, -3, 7, 2]) sampler_start).stats.total_latency
        (rt_loop (no_stop [5, 0, -3, 7, 2]) sampler_start).stats.sample_count ∧
      r.min = (rt_loop (no_stop [5, 0, -3, 7, 2]) sampler_start).stats.min_latency ∧
      r.max = (rt_loop (no_stop [5, 0, -3, 7, 2]) sampler_start).stats.max_latency ∧
      r.min ≤ r.avg ∧ r.avg ≤ r.max :=
  average_between_min_and_max (no_stop [5, 0, -3, 7, 2]) (by decide) (by decide)

/-- C7: on a buffer with `sample_count = 0`, `calculate_statistics` reports
"no samples" and leaves `stats` as it was, although the division
`total_latency / sample_count` would be undefined there; on every buffer with
`sample_count ≥ 1` it reports statistics whose average is the quotient; it
never executes a division by zero. -/
theorem empty_buffer_reports_no_samples (s : rt_stats_t) :
    (s.sample_count = 0 →
      calculate_statistics s = some (s, report_t.no_samples) ∧
      ll_div s.total_latency s.sample_count = none) ∧
    (1 ≤ s.sample_count →
      ∃ s1 r, calculate_statistics s = some (s1, report_t.statistics r) ∧
        r.samples = s.sample_count ∧
        ll_div s.total_latency s.sample_count = some r.avg) ∧
    calculate_statistics s ≠ none := by
  refine ⟨?_, ?_, ?_⟩
  · intro h
    constructor
    · unfold calculate_statistics
      rw [if_pos h]
    · unfold ll_div
      rw [if_pos (by omega)]
  · intro h
    refine ⟨_, _, calculate_statistics_of_pos s h, rfl, ?_⟩
    exact ll_div_of_ne_zero _ _ (by omega)
  · by_cases h : s.sample_count = 0
    · unfold calculate_statistics
      rw [if_pos h]
      simp
    · rw [calculate_statistics_of_pos s (by omega)]
      simp

theorem empty_buffer_reports_no_samples_witness :
    (calculate_statistics stats_zero = some (stats_zero, report_t.no_samples) ∧
      ll_div stats_zero.total_latency stats_zero.sample_count = none) ∧
    (∃ s1 r, calculate_statistics (rt_loop (no_stop [5, 0, 7]) sampler_start).stats
        = some (s1, report_t.statistics r) ∧
      r.samples = (rt_loop (no_stop [5, 0, 7]) sampler_start).stats.sample_count ∧
      ll_div (rt_loop (no_stop [5, 0, 7]) sampler_start).stats.total_latency
        (rt_loop (no_stop [5, 0, 7]) sampler_start).stats.sample_count = some r.avg) :=
  ⟨(empty_buffer_reports_no_samples stats_zero).1 rfl,
   (empty_buffer_reports_no_samples _).2.1 (by decide)⟩


/-! ### The sort -/

theorem swap_lt (n i j k : Nat) (hi : i < n) (hj : j < n) (hk : k < n) :
    Equiv.swap i j k < n := by
  rw [Equiv.swap_apply_def]
  split_ifs <;> assumption

theorem perm_map_swap (a : Nat → Int) (n i j : Nat) (hi : i < n) (hj : j < n) :
    ((List.range n).map (fun k => a (Equiv.swap i j k))).Perm ((List.range n).map a) := by
  have hperm : ((List.range n).map (Equiv.swap i j)).Perm (List.range n) := by
    apply (List.perm_ext_iff_of_nodup
      (List.Nodup.map (Equiv.swap i j).injective (List.nodup_range n))
      (List.nodup_range n)).2
    intro x
    simp only [List.mem_map, List.mem_range]
    constructor
    · rintro ⟨k, hk, rfl⟩
      exact swap_lt n i j k hi hj hk
    · intro hx
      exact ⟨Equiv.swap i j x, swap_lt n i j x hi hj hx, Equiv.swap_apply_self i j x⟩
  have := List.Perm.map a hperm
  rw [List.map_map] at this
  exact this

theorem sort_step_eq (a : Nat → Int) (i j : Nat) (hij : i ≠ j) :
    sort_step a i j = if a i > a j then (fun k => a (Equiv.swap i j k)) else a := by
  unfold sort_step
  by_cases h : a i > a j
  · rw [if_pos h, if_pos h]
    funext k
    simp only [arr_set, Equiv.swap_apply_def]
    by_cases h1 : k = j
    · subst h1
      have : k ≠ i := fun h2 => hij h2.symm
      simp [this]
    · by_cases h2 : k = i
      · subst h2
        simp [h1, hij]
      · simp [h1, h2]
  · rw [if_neg h, if_neg h]

theorem sort_step_perm (a : Nat → Int) (n i j : Nat) (hij : i < j) (hj : j < n) :
    ((List.range n).map (sort_step a i j)).Perm ((List.range n).map a) := by
  rw [sort_step_eq a i j (by omega)]
  split_ifs
  · exact perm_map_swap a n i j (by omega) hj
  · exact List.Perm.refl _

theorem sort_step_at_i (a : Nat → Int) (i j : Nat) (hij : i ≠ j) :
    sort_step a i j i = min (a i) (a j) := by
  rw [sort_step_eq a i j hij]
  split_ifs with h
  · simp only [Equiv.swap_apply_left]; omega
  · omega

theorem sort_step_at_j (a : Nat → Int) (i j : Nat) (hij : i ≠ j) :
    sort_step a i j j = max (a i) (a j) := by
  rw [sort_step_eq a i j hij]
  split_ifs with h
  · simp only [Equiv.swap_apply_right]; omega
  · omega

theorem sort_step_other (a : Nat → Int) (i j k : Nat) (hij : i ≠ j) (hi : k ≠ i)
    (hj : k ≠ j) : sort_step a i j k = a k := by
  rw [sort_step_eq a i j hij]
  split_ifs with h
  · simp only [Equiv.swap_apply_of_ne_of_ne hi hj]
  · rfl

/-- What the inner loop running from `j` to `n` establishes. -/
theorem sort_inner_spec (n i : Nat) :
    ∀ (k j : Nat) (a : Nat → Int), i < j → j + k = n →
      (∀ q, i < q → q < j → a i ≤ a q) →
      ((List.range n).map (sort_inner i k j a)).Perm ((List.range n).map a) ∧
      (∀ p, p < i ∨ n ≤ p → sort_inner i k j a p = a p) ∧
      (∀ q, i < q → q < n → sort_inner i k j a i ≤ sort_inner i k j a q) ∧
      (∀ q, i ≤ q → q < n → ∃ q1, i ≤ q1 ∧ q1 < n ∧ sort_inner i k j a q = a q1) := by
  intro k
  induction k with
  | zero =>
    intro j a _ hjn hle
    exact ⟨List.Perm.refl _, fun _ _ => rfl, fun q h1 h2 => hle q h1 (by omega),
      fun q h1 h2 => ⟨q, h1, h2, rfl⟩⟩
  | succ k ih =>
    intro j a hij hjn hle
    have hne : i ≠ j := by omega
    have hle1 : ∀ q, i < q → q < j + 1 → sort_step a i j i ≤ sort_step a i j q := by
      intro q h1 h2
      rw [sort_step_at_i a i j hne]
      by_cases hq : q = j
      · subst hq
        rw [sort_step_at_j a i q hne]
        omega
      · rw [sort_step_other a i j q hne (by omega) hq]
        have := hle q h1 (by omega)
        omega
    obtain ⟨hperm, hframe, hmin, hfrom⟩ := ih (j + 1) (sort_step a i j) (by omega) (by omega) hle1
    simp only [sort_inner]
    refine ⟨hperm.trans (sort_step_perm a n i j hij (by omega)), ?_, hmin, ?_⟩
    · intro p hp
      rw [hframe p hp]
      exact sort_step_other a i j p hne (by omega) (by omega)
    · intro q h1 h2
      obtain ⟨q1, h3, h4, h5⟩ := hfrom q h1 h2
      rw [h5]
      by_cases hqi : q1 = i
      · subst hqi
        rw [sort_step_at_i a q1 j hne]
        by_cases hc : a q1 ≤ a j
        · exact ⟨q1, le_refl _, h4, by omega⟩
        · exact ⟨j, by omega, by omega, by omega⟩
      · by_cases hqj : q1 = j
        · subst hqj
          rw [sort_step_at_j a i q1 hne]
          by_cases hc : a i ≤ a q1
          · exact ⟨q1, h3, h4, by omega⟩
          · exact ⟨i, le_refl _, by omega, by omega⟩
        · exact ⟨q1, h3, h4, sort_step_other a i j q1 hne hqi hqj⟩


/-- What the outer loop running from `i` to `n - 1` establishes, when the
cells before `i` are already in order and below all later cells. -/
theorem sort_outer_spec (n : Nat) :
    ∀ (k i : Nat) (a : Nat → Int), i + k = n - 1 →
      (∀ p q, p < i → p < q → q < n → a p ≤ a q) →
      ((List.range n).map (sort_outer n k i a)).Perm ((List.range n).map a) ∧
      (∀ p, n ≤ p → sort_outer n k i a p = a p) ∧
      (∀ p q, p < q → q < n → sort_outer n k i a p ≤ sort_outer n k i a q) := by
  intro k
  induction k with
  | zero =>
    intro i a hi hinv
    exact ⟨List.Perm.refl _, fun _ _ => rfl, fun p q h1 h2 => hinv p q (by omega) h1 h2⟩
  | succ k ih =>
    intro i a hi hinv
    obtain ⟨hperm, hframe, hmin, hfrom⟩ :=
      sort_inner_spec n i (n - (i + 1)) (i + 1) a (by omega) (by omega)
        (fun q h1 h2 => absurd h2 (by omega))
    have hinv1 : ∀ p q, p < i + 1 → p < q → q < n →
        sort_inner i (n - (i + 1)) (i + 1) a p ≤ sort_inner i (n - (i + 1)) (i + 1) a q := by
      intro p q hp hpq hq
      by_cases hpi : p = i
      · subst hpi
        exact hmin q hpq hq
      · have hp1 : p < i := by omega
        rw [hframe p (Or.inl hp1)]
        by_cases hqi : q < i
        · rw [hframe q (Or.inl hqi)]
          exact hinv p q hp1 hpq hq
        · obtain ⟨q1, h3, h4, h5⟩ := hfrom q (by omega) hq
          rw [h5]
          exact hinv p q1 hp1 (by omega) h4
    obtain ⟨hperm2, hframe2, hsorted⟩ :=
      ih (i + 1) (sort_inner i (n - (i + 1)) (i + 1) a) (by omega) hinv1
    simp only [sort_outer]
    refine ⟨hperm2.trans hperm, ?_, hsorted⟩
    intro p hp
    rw [hframe2 p hp]
    exact hframe p (Or.inr hp)

/-- The nested-loop sort orders the first `n` cells, permutes them, and
leaves the other cells alone. -/
theorem sort_samples_spec (n : Nat) (a : Nat → Int) :
    ((List.range n).map (sort_samples n a)).Perm ((List.range n).map a) ∧
    (∀ p, n ≤ p → sort_samples n a p = a p) ∧
    (∀ p q, p < q → q < n → sort_samples n a p ≤ sort_samples n a q) := by
  unfold sort_samples
  exact sort_outer_spec n (n - 1) 0 a (by omega) (fun p q h => absurd h (by omega))

/-- C5: for `1 ≤ sample_count ≤ MAX_SAMPLES`, `calculate_statistics` leaves
the prefix `latency_samples[0 .. sample_count)` in non-decreasing order and a
permutation of what it was before the call; `sample_count` is unchanged. -/
theorem sort_orders_and_permutes (s : rt_stats_t)
    (hlo : 1 ≤ s.sample_count) (hhi : s.sample_count ≤ MAX_SAMPLES) :
    ∃ s1 r, calculate_statistics s = some (s1, r) ∧
      s1.sample_count = s.sample_count ∧
      List.Sorted (fun x y => x ≤ y) (stored s1) ∧
      List.Perm (stored s1) (stored s) := by
  have _ := hhi
  obtain ⟨hperm, _, hsorted⟩ := sort_samples_spec s.sample_count s.latency_samples
  refine ⟨_, _, calculate_statistics_of_pos s hlo, rfl, ?_, hperm⟩
  unfold stored List.Sorted
  rw [List.pairwise_map]
  apply List.Pairwise.imp_of_mem _ (List.pairwise_lt_range s.sample_count)
  intro p q _ hq hpq
  exact hsorted p q hpq (List.mem_range.mp hq)


theorem sort_orders_and_permutes_witness :
    ∃ s1 r, calculate_statistics (rt_loop (no_stop [30, 10, 20]) sampler_start).stats
        = some (s1, r) ∧
      s1.sample_count = (rt_loop (no_stop [30, 10, 20]) sampler_start).stats.sample_count ∧
      List.Sorted (fun x y => x ≤ y) (stored s1) ∧
      List.Perm (stored s1) (stored (rt_loop (no_stop [30, 10, 20]) sampler_start).stats) :=
  sort_orders_and_permutes _ (by decide) (by decide)

/-! ### The percentile indices -/

theorem excess_bits_eq : ∀ (d fuel x : Nat), d ≤ fuel →
    (d = 0 ∨ 2 ^ (52 + d) ≤ x) → x < 2 ^ (53 + d) → excess_bits fuel x = d := by
  intro d
  induction d with
  | zero =>
    intro fuel x _ _ hx
    cases fuel with
    | zero => rfl
    | succ f =>
      simp only [excess_bits]
      rw [if_pos hx]
  | succ d ih =>
    intro fuel x hf hlo hhi
    cases fuel with
    | zero => omega
    | succ f =>
      have hlo2 : 2 ^ (52 + (d + 1)) ≤ x := by
        rcases hlo with h | h
        · omega
        · exact h
      have e1 : 2 ^ (52 + (d + 1)) = 2 ^ 53 * 2 ^ d := by
        rw [show 52 + (d + 1) = 53 + d by omega, pow_add]
      have e2 : 2 ^ (53 + (d + 1)) = 2 * (2 ^ 53 * 2 ^ d) := by
        rw [show 53 + (d + 1) = 1 + (53 + d) by omega, pow_add, pow_add]
        norm_num
      have e3 : 2 ^ (53 + d) = 2 ^ 53 * 2 ^ d := pow_add 2 53 d
      have hpos : 0 < 2 ^ d := Nat.pow_pos (by decide)
      have hge : ¬ x < 2 ^ 53 := by
        rw [e1] at hlo2
        have : 2 ^ 53 * 1 ≤ 2 ^ 53 * 2 ^ d := Nat.mul_le_mul_left _ hpos
        omega
      simp only [excess_bits]
      rw [if_neg hge, ih f (x / 2) (by omega)]
      · by_cases hd : d = 0
        · left; exact hd
        · right
          have e4 : 2 ^ (52 + d) * 2 = 2 ^ (52 + (d + 1)) := by
            rw [show 52 + (d + 1) = (52 + d) + 1 by omega, pow_succ]
          omega
      · rw [e3]
        rw [e2] at hhi
        omega

theorem percentile_index_95 (n : Nat) (h1 : 1 ≤ n) (h2 : n ≤ MAX_SAMPLES) :
    percentile_index n DBL_0_95 = n * 95 / 100 := by
  have h3 : n ≤ 10000 := h2
  have hm : DBL_0_95 = 8556839292003942 := by decide
  have key : ∀ d, d ≤ 14 → (d = 0 ∨ 2 ^ (52 + d) ≤ n * 8556839292003942) →
      n * 8556839292003942 < 2 ^ (53 + d) →
      round_binary64 (n * 8556839292003942) / 2 ^ 53 = n * 95 / 100 := by
    intro d hd hlo hhi
    have hbits := excess_bits_eq d 53 _ (by omega) hlo hhi
    unfold round_binary64
    simp only [hbits]
    interval_cases d <;> norm_num at hlo hhi ⊢ <;> split_ifs <;> omega
  unfold percentile_index
  rw [hm]
  by_cases c0 : n * 8556839292003942 < 2 ^ 53
  · exact key 0 (by decide) (Or.inl rfl) c0
  by_cases c1 : n * 8556839292003942 < 2 ^ 54
  · exact key 1 (by decide) (Or.inr (by norm_num at c0 ⊢; omega)) c1
  by_cases c2 : n * 8556839292003942 < 2 ^ 55
  · exact key 2 (by decide) (Or.inr (by norm_num at c1 ⊢; omega)) c2
  by_cases c3 : n * 8556839292003942 < 2 ^ 56
  · exact key 3 (by decide) (Or.inr (by norm_num at c2 ⊢; omega)) c3
  by_cases c4 : n * 8556839292003942 < 2 ^ 57
  · exact key 4 (by decide) (Or.inr (by norm_num at c3 ⊢; omega)) c4
  by_cases c5 : n * 8556839292003942 < 2 ^ 58
  · exact key 5 (by decide) (Or.inr (by norm_num at c4 ⊢; omega)) c5
  by_cases c6 : n * 8556839292003942 < 2 ^ 59
  · exact key 6 (by decide) (Or.inr (by norm_num at c5 ⊢; omega)) c6
  by_cases c7 : n * 8556839292003942 < 2 ^ 60
  · exact key 7 (by decide) (Or.inr (by norm_num at c6 ⊢; omega)) c7
  by_cases c8 : n * 8556839292003942 < 2 ^ 61
  · exact key 8 (by decide) (Or.inr (by norm_num at c7 ⊢; omega)) c8
  by_cases c9 : n * 8556839292003942 < 2 ^ 62
  · exact key 9 (by decide) (Or.inr (by norm_num at c8 ⊢; omega)) c9
  by_cases c10 : n * 8556839292003942 < 2 ^ 63
  · exact key 10 (by decide) (Or.inr (by norm_num at c9 ⊢; omega)) c10
  by_cases c11 : n * 8556839292003942 < 2 ^ 64
  · exact key 11 (by decide) (Or.inr (by norm_num at c10 ⊢; omega)) c11
  by_cases c12 : n * 8556839292003942 < 2 ^ 65
  · exact key 12 (by decide) (Or.inr (by norm_num at c11 ⊢; omega)) c12
  by_cases c13 : n * 8556839292003942 < 2 ^ 66
  · exact key 13 (by decide) (Or.inr (by norm_num at c12 ⊢; omega)) c13
  exact key 14 (by decide) (Or.inr (by norm_num at c13 ⊢; omega)) (by norm_num; omega)

theorem percentile_index_99 (n : Nat) (h1 : 1 ≤ n) (h2 : n ≤ MAX_SAMPLES) :
    percentile_index n DBL_0_99 = n * 99 / 100 := by
  have h3 : n ≤ 10000 := h2
  have hm : DBL_0_99 = 8917127262193582 := by decide
  have key : ∀ d, d ≤ 14 → (d = 0 ∨ 2 ^ (52 + d) ≤ n * 8917127262193582) →
      n * 8917127262193582 < 2 ^ (53 + d) →
      round_binary64 (n * 8917127262193582) / 2 ^ 53 = n * 99 / 100 := by
    intro d hd hlo hhi
    have hbits := excess_bits_eq d 53 _ (by omega) hlo hhi
    unfold round_binary64
    simp only [hbits]
    interval_cases d <;> norm_num at hlo hhi ⊢ <;> split_ifs <;> omega
  unfold percentile_index
  rw [hm]
  by_cases c0 : n * 8917127262193582 < 2 ^ 53
  · exact key 0 (by decide) (Or.inl rfl) c0
  by_cases c1 : n * 8917127262193582 < 2 ^ 54
  · exact key 1 (by decide) (Or.inr (by norm_num at c0 ⊢; omega)) c1
  by_cases c2 : n * 8917127262193582 < 2 ^ 55
  · exact key 2 (by decide) (Or.inr (by norm_num at c1 ⊢; omega)) c2
  by_cases c3 : n * 8917127262193582 < 2 ^ 56
  · exact key 3 (by decide) (Or.inr (by norm_num at c2 ⊢; omega)) c3
  by_cases c4 : n * 8917127262193582 < 2 ^ 57
  · exact key 4 (by decide) (Or.inr (by norm_num at c3 ⊢; omega)) c4
  by_cases c5 : n * 8917127262193582 < 2 ^ 58
  · exact key 5 (by decide) (Or.inr (by norm_num at c4 ⊢; omega)) c5
  by_cases c6 : n * 8917127262193582 < 2 ^ 59
  · exact key 6 (by decide) (Or.inr (by norm_num at c5 ⊢; omega)) c6
  by_cases c7 : n * 8917127262193582 < 2 ^ 60
  · exact key 7 (by decide) (Or.inr (by norm_num at c6 ⊢; omega)) c7
  by_cases c8 : n * 8917127262193582 < 2 ^ 61
  · exact key 8 (by decide) (Or.inr (by norm_num at c7 ⊢; omega)) c8
  by_cases c9 : n * 8917127262193582 < 2 ^ 62
  · exact key 9 (by decide) (Or.inr (by norm_num at c8 ⊢; omega)) c9
  by_cases c10 : n * 8917127262193582 < 2 ^ 63
  · exact key 10 (by decide) (Or.inr (by norm_num at c9 ⊢; omega)) c10
  by_cases c11 : n * 8917127262193582 < 2 ^ 64
  · exact key 11 (by decide) (Or.inr (by norm_num at c10 ⊢; omega)) c11
  by_cases c12 : n * 8917127262193582 < 2 ^ 65
  · exact key 12 (by decide) (Or.inr (by norm_num at c11 ⊢; omega)) c12
  by_cases c13 : n * 8917127262193582 < 2 ^ 66
  · exact key 13 (by decide) (Or.inr (by norm_num at c12 ⊢; omega)) c13
  exact key 14 (by decide) (Or.inr (by norm_num at c13 ⊢; omega)) (by norm_num; omega)

/-- C6: for `1 ≤ sample_count ≤ MAX_SAMPLES` the indices
`(int)(sample_count * 0.95)` and `(int)(sample_count * 0.99)` that
`calculate_statistics` reads `p95` and `p99` at equal `floor(count * f)`
clamped to `[0, count - 1]`, and `0 ≤ i95 ≤ i99 ≤ sample_count - 1`; for
`sample_count = 10` both are `9`. -/
theorem percentile_indices_in_range (s : rt_stats_t)
    (hlo : 1 ≤ s.sample_count) (hhi : s.sample_count ≤ MAX_SAMPLES) :
    (∃ s1 r, calculate_statistics s = some (s1, report_t.statistics r) ∧
      r.p95 = s1.latency_samples (percentile_index s.sample_count DBL_0_95) ∧
      r.p99 = s1.latency_samples (percentile_index s.sample_count DBL_0_99)) ∧
    percentile_index s.sample_count DBL_0_95 = spec_percentile_index s.sample_count 95 100 ∧
    percentile_index s.sample_count DBL_0_99 = spec_percentile_index s.sample_count 99 100 ∧
    percentile_index s.sample_count DBL_0_95 ≤ percentile_index s.sample_count DBL_0_99 ∧
    percentile_index s.sample_count DBL_0_99 ≤ s.sample_count - 1 ∧
    percentile_index s.sample_count DBL_0_99 < s.sample_count ∧
    percentile_index 10 DBL_0_95 = 9 ∧ percentile_index 10 DBL_0_99 = 9 := by
  have h95 := percentile_index_95 s.sample_count hlo hhi
  have h99 := percentile_index_99 s.sample_count hlo hhi
  refine ⟨⟨_, _, calculate_statistics_of_pos s hlo, rfl, rfl⟩, ?_, ?_, ?_, ?_, ?_, ?_, ?_⟩
  · rw [h95]; unfold spec_percentile_index; omega
  · rw [h99]; unfold spec_percentile_index; omega
  · rw [h95, h99]; omega
  · rw [h99]; omega
  · rw [h99]; omega
  · exact percentile_index_95 10 (by decide) (by decide)
  · exact percentile_index_99 10 (by decide) (by decide)

theorem percentile_indices_in_range_witness :
    percentile_index 10 DBL_0_95 = spec_percentile_index 10 95 100 ∧
    percentile_index 10 DBL_0_99 = spec_percentile_index 10 99 100 ∧
    percentile_index 10 DBL_0_95 ≤ percentile_index 10 DBL_0_99 ∧
    percentile_index 10 DBL_0_99 ≤ 10 - 1 ∧
    percentile_index 10 DBL_0_99 < 10 ∧
    percentile_index 10 DBL_0_95 = 9 ∧ percentile_index 10 DBL_0_99 = 9 :=
  (percentile_indices_in_range { stats_zero with sample_count := 10 }
    (by decide) (by decide)).2

/-! ## Lemmas on CPU placement -/

theorem is_isolated_iff (cfg : cpu_config_t) (cpu : Int) :
    ∀ (k i : Nat), is_isolated cfg cpu k i = true ↔
      ∃ m, i ≤ m ∧ m < i + k ∧ cfg.isolated_cpus m = cpu := by
  intro k
  induction k with
  | zero =>
    intro i
    simp only [is_isolated]
    constructor
    · intro h; exact absurd h (by decide)
    · rintro ⟨m, h1, h2, _⟩; omega
  | succ k ih =>
    intro i
    simp only [is_isolated]
    by_cases hc : cpu = cfg.isolated_cpus i
    · rw [if_pos hc]
      exact ⟨fun _ => ⟨i, le_refl _, by omega, hc.symm⟩, fun _ => rfl⟩
    · rw [if_neg hc, ih (i + 1)]
      constructor
      · rintro ⟨m, h1, h2, h3⟩
        exact ⟨m, by omega, by omega, h3⟩
      · rintro ⟨m, h1, h2, h3⟩
        have hne : m ≠ i := by
          intro h
          rw [h] at h3
          exact hc h3.symm
        exact ⟨m, by omega, by omega, h3⟩

theorem mem_CPU_SET (cpu : Nat) (set : cpu_set_t) (x : Fin CPU_SETSIZE) :
    x ∈ CPU_SET cpu set ↔ x ∈ set ∨ x.val = cpu := by
  unfold CPU_SET
  by_cases h : cpu < CPU_SETSIZE
  · rw [dif_pos h, Finset.mem_insert, Fin.ext_iff]
    exact Or.comm
  · rw [dif_neg h]
    constructor
    · intro hx; exact Or.inl hx
    · rintro (hx | hx)
      · exact hx
      · have := x.isLt
        omega

theorem load_cpuset_loop_mem (cfg : cpu_config_t) (x : Fin CPU_SETSIZE) :
    ∀ (k cpu : Nat) (cpuset : cpu_set_t),
      x ∈ load_cpuset_loop cfg k cpu cpuset ↔
        x ∈ cpuset ∨ (cpu ≤ x.val ∧ x.val < cpu + k ∧
          is_isolated cfg x.val cfg.isolated_count 0 = false) := by
  intro k
  induction k with
  | zero =>
    intro cpu cpuset
    simp only [load_cpuset_loop]
    constructor
    · intro h; exact Or.inl h
    · rintro (h | ⟨h1, h2, _⟩)
      · exact h
      · omega
  | succ k ih =>
    intro cpu cpuset
    simp only [load_cpuset_loop]
    rw [ih]
    by_cases hiso : is_isolated cfg cpu cfg.isolated_count 0 = true
    · simp only [hiso, Bool.not_true, Bool.false_eq_true, if_false]
      constructor
      · rintro (h | ⟨h1, h2, h3⟩)
        · exact Or.inl h
        · exact Or.inr ⟨by omega, by omega, h3⟩
      · rintro (h | ⟨h1, h2, h3⟩)
        · exact Or.inl h
        · have hne : x.val ≠ cpu := by
            intro h
            rw [h, hiso] at h3
            exact absurd h3 (by decide)
          exact Or.inr ⟨by omega, by omega, h3⟩
    · have hiso2 : is_isolated cfg cpu cfg.isolated_count 0 = false := by
        simpa using hiso
      simp only [hiso2, Bool.not_false, if_true, mem_CPU_SET]
      constructor
      · rintro ((h | h) | ⟨h1, h2, h3⟩)
        · exact Or.inl h
        · exact Or.inr ⟨by omega, by omega, by rw [h]; exact hiso2⟩
        · exact Or.inr ⟨by omega, by omega, h3⟩
      · rintro (h | ⟨h1, h2, h3⟩)
        · exact Or.inl (Or.inl h)
        · by_cases hc : x.val = cpu
          · exact Or.inl (Or.inr hc)
          · exact Or.inr ⟨by omega, by omega, h3⟩

/-- Membership in the load CPU set. -/
theorem mem_load_cpuset (cfg : cpu_config_t) (x : Fin CPU_SETSIZE) :
    x ∈ load_cpuset cfg ↔
      (x.val : Int) < cfg.total_cpus ∧
        ∀ i, i < cfg.isolated_count → cfg.isolated_cpus i ≠ x.val := by
  unfold load_cpuset CPU_ZERO
  rw [load_cpuset_loop_mem]
  have hfalse : is_isolated cfg x.val cfg.isolated_count 0 = false ↔
      ∀ i, i < cfg.isolated_count → cfg.isolated_cpus i ≠ x.val := by
    rw [← Bool.not_eq_true, is_isolated_iff]
    constructor
    · intro h i hi heq
      exact h ⟨i, Nat.zero_le _, by omega, heq⟩
    · rintro h ⟨m, _, h2, h3⟩
      exact h m (by omega) h3
  rw [hfalse]
  constructor
  · rintro (h | ⟨_, h2, h3⟩)
    · exact absurd h (Finset.not_mem_empty x)
    · exact ⟨by omega, h3⟩
  · rintro ⟨h1, h2⟩
    exact Or.inr ⟨Nat.zero_le _, by omega, h2⟩

/-- The load CPU set is the same for two topologies that agree on `total_cpus`
and on the isolated list. -/
theorem load_cpuset_congr (cfg cfg2 : cpu_config_t)
    (h1 : cfg2.total_cpus = cfg.total_cpus)
    (h2 : cfg2.isolated_count = cfg.isolated_count)
    (h3 : ∀ i, i < cfg.isolated_count → cfg2.isolated_cpus i = cfg.isolated_cpus i) :
    load_cpuset cfg2 = load_cpuset cfg := by
  ext x
  rw [mem_load_cpuset, mem_load_cpuset, h1, h2]
  constructor
  · rintro ⟨ha, hb⟩
    exact ⟨ha, fun i hi => by rw [← h3 i hi]; exact hb i hi⟩
  · rintro ⟨ha, hb⟩
    exact ⟨ha, fun i hi => by rw [h3 i hi]; exact hb i hi⟩

/-- The test `CPU_ISSET` on the load CPU set. -/
theorem CPU_ISSET_load_cpuset (cfg : cpu_config_t) (c : Int) :
    CPU_ISSET c (load_cpuset cfg) = true ↔
      (0 ≤ c ∧ c < cfg.total_cpus ∧ c < CPU_SETSIZE ∧
        ∀ i, i < cfg.isolated_count → cfg.isolated_cpus i ≠ c) := by
  unfold CPU_ISSET
  by_cases h : 0 ≤ c ∧ c.toNat < CPU_SETSIZE
  · rw [dif_pos h, decide_eq_true_eq, mem_load_cpuset]
    have hc : ((c.toNat : Nat) : Int) = c := Int.toNat_of_nonneg h.1
    simp only [hc]
    constructor
    · rintro ⟨ha, hb⟩
      exact ⟨h.1, ha, by omega, hb⟩
    · rintro ⟨_, ha, _, hb⟩
      exact ⟨ha, hb⟩
  · rw [dif_neg h]
    constructor
    · intro hf
      exact absurd hf (by decide)
    · rintro ⟨h0, _, hlt, _⟩
      exact absurd ⟨h0, by omega⟩ h

/-- C8: the CPU chosen for the sampler is `isolated_cpus[0]` when
`isolated_count > 0`, else `rcu_nocbs_cpus[0]` when `rcu_nocbs_count > 0`,
else `total_cpus - 1` (a CPU of the topology when `total_cpus ≥ 1`); a
non-empty isolated set wins whatever the two sets contain, and the choice does
not change with anything outside the topology fields it reads. -/
theorem rt_cpu_priority_order (cfg : cpu_config_t) (htotal : 1 ≤ cfg.total_cpus) :
    (0 < cfg.isolated_count → rt_cpu cfg = cfg.isolated_cpus 0) ∧
    (cfg.isolated_count = 0 → 0 < cfg.rcu_nocbs_count →
      rt_cpu cfg = cfg.rcu_nocbs_cpus 0) ∧
    (cfg.isolated_count = 0 → cfg.rcu_nocbs_count = 0 →
      rt_cpu cfg = cfg.total_cpus - 1 ∧ 0 ≤ rt_cpu cfg ∧ rt_cpu cfg < cfg.total_cpus) ∧
    (∀ (nocb : Nat → Int) (nocb_count : Nat), 0 < cfg.isolated_count →
      rt_cpu { cfg with rcu_nocbs_cpus := nocb, rcu_nocbs_count := nocb_count }
        = cfg.isolated_cpus 0) ∧
    (∀ cfg2 : cpu_config_t, cfg2.isolated_count = cfg.isolated_count →
      cfg2.isolated_cpus 0 = cfg.isolated_cpus 0 →
      cfg2.rcu_nocbs_count = cfg.rcu_nocbs_count →
      cfg2.rcu_nocbs_cpus 0 = cfg.rcu_nocbs_cpus 0 →
      cfg2.total_cpus = cfg.total_cpus → rt_cpu cfg2 = rt_cpu cfg) := by
  refine ⟨?_, ?_, ?_, ?_, ?_⟩
  · intro h
    unfold rt_cpu
    rw [if_pos h]
  · intro h0 h1
    unfold rt_cpu
    rw [if_neg (by omega), if_pos h1]
  · intro h0 h1
    have h : rt_cpu cfg = cfg.total_cpus - 1 := by
      unfold rt_cpu
      rw [if_neg (by omega), if_neg (by omega)]
    rw [h]
    exact ⟨rfl, by omega, by omega⟩
  · intro nocb nocb_count h
    unfold rt_cpu
    rw [if_pos h]
  · intro cfg2 h1 h2 h3 h4 h5
    unfold rt_cpu
    rw [h1, h2, h3, h4, h5]

theorem rt_cpu_priority_order_witness :
    rt_cpu scenario_topology = scenario_topology.isolated_cpus 0 :=
  (rt_cpu_priority_order scenario_topology (by decide)).1 (by decide)

/-- C9, as the code has it: the CPU set built in `load_thread` contains `c`
exactly when `0 ≤ c < total_cpus`, `c` is below `CPU_SETSIZE` (a `cpu_set_t`
has no bit for a higher CPU and `CPU_SET` does nothing for it) and `c` is none
of `isolated_cpus[0 .. isolated_count)`; for a topology with
`total_cpus ≤ CPU_SETSIZE` that is exactly when `0 ≤ c < total_cpus` and `c`
is not isolated. The set is the same for any two topologies that agree on
`total_cpus` and on the isolated list, whatever their no-callback and
no-tick-full sets (and hence whatever CPU the sampler chose). -/
theorem load_cpuset_avoids_isolated (cfg : cpu_config_t) :
    (∀ c : Int, CPU_ISSET c (load_cpuset cfg) = true ↔
      (0 ≤ c ∧ c < cfg.total_cpus ∧ c < CPU_SETSIZE ∧
        ∀ i, i < cfg.isolated_count → cfg.isolated_cpus i ≠ c)) ∧
    (cfg.total_cpus ≤ CPU_SETSIZE →
      ∀ c : Int, CPU_ISSET c (load_cpuset cfg) = true ↔
        (0 ≤ c ∧ c < cfg.total_cpus ∧
          ∀ i, i < cfg.isolated_count → cfg.isolated_cpus i ≠ c)) ∧
    (∀ cfg2 : cpu_config_t, cfg2.total_cpus = cfg.total_cpus →
      cfg2.isolated_count = cfg.isolated_count →
      (∀ i, i < cfg.isolated_count → cfg2.isolated_cpus i = cfg.isolated_cpus i) →
      load_cpuset cfg2 = load_cpuset cfg) := by
  refine ⟨CPU_ISSET_load_cpuset cfg, ?_, load_cpuset_congr cfg⟩
  intro hle c
  rw [CPU_ISSET_load_cpuset]
  constructor
  · rintro ⟨h0, h1, _, h3⟩
    exact ⟨h0, h1, h3⟩
  · rintro ⟨h0, h1, h3⟩
    exact ⟨h0, h1, by omega, h3⟩

theorem load_cpuset_avoids_isolated_witness :
    (∀ c : Int, CPU_ISSET c (load_cpuset scenario_topology) = true ↔
      (0 ≤ c ∧ c < scenario_topology.total_cpus ∧
        ∀ i, i < scenario_topology.isolated_count →
          scenario_topology.isolated_cpus i ≠ c)) ∧
    load_cpuset { scenario_topology with
        rcu_nocbs_cpus := fun _ => 3, rcu_nocbs_count := 1, nohz_full_count := 7 }
      = load_cpuset scenario_topology :=
  ⟨(load_cpuset_avoids_isolated scenario_topology).2.1 (by decide),
   (load_cpuset_avoids_isolated scenario_topology).2.2 _ rfl rfl (fun _ _ => rfl)⟩

/-- C9 as stated fails: in a topology with 1030 CPUs and none isolated, CPU
1024 satisfies `0 ≤ c < total_cpus` and is not isolated, but it is not in the
load CPU set, because a `cpu_set_t` has no bit for it. -/
theorem load_cpuset_drops_cpu_1024 :
    CPU_ISSET 1024 (load_cpuset large_topology) = false ∧
    ¬ (CPU_ISSET 1024 (load_cpuset large_topology) = true ↔
      ((0 : Int) ≤ 1024 ∧ (1024 : Int) < large_topology.total_cpus ∧
        ∀ i, i < large_topology.isolated_count →
          large_topology.isolated_cpus i ≠ 1024)) := by
  have hfalse : CPU_ISSET 1024 (load_cpuset large_topology) = false := by
    unfold CPU_ISSET
    rw [dif_neg (by decide)]
  refine ⟨hfalse, ?_⟩
  rw [hfalse]
  intro h
  have hrhs : (0 : Int) ≤ 1024 ∧ (1024 : Int) < large_topology.total_cpus ∧
      ∀ i, i < large_topology.isolated_count →
        large_topology.isolated_cpus i ≠ 1024 :=
    ⟨by decide, by decide, fun i hi => absurd hi (Nat.not_lt_zero i)⟩
  exact absurd (h.mpr hrhs) (by decide)

/-- C10, as the code has it: for any topology with isolated list `4, 5`, no
no-callback CPU and eight CPUs, the sampler gets CPU 4 and the load CPU set is
`{0, 1, 2, 3, 6, 7}`: both isolated CPUs are left out. -/
theorem scenario_one_placement (cfg : cpu_config_t)
    (hcount : cfg.isolated_count = 2) (h0 : cfg.isolated_cpus 0 = 4)
    (h1 : cfg.isolated_cpus 1 = 5) (hnocb : cfg.rcu_nocbs_count = 0)
    (htotal : cfg.total_cpus = 8) :
    rt_cpu cfg = 4 ∧ load_cpuset cfg = {0, 1, 2, 3, 6, 7} := by
  have _ := hnocb
  constructor
  · unfold rt_cpu
    rw [if_pos (by omega), h0]
  · have hsame : load_cpuset cfg = load_cpuset scenario_topology := by
      apply load_cpuset_congr scenario_topology cfg htotal hcount
      intro i hi
      have hi2 : i = 0 ∨ i = 1 := by
        have : i < 2 := hi
        omega
      rcases hi2 with hi2 | hi2 <;> subst hi2
      · exact h0
      · exact h1
    rw [hsame]
    decide

theorem scenario_one_placement_witness :
    rt_cpu scenario_topology = 4 ∧ load_cpuset scenario_topology = {0, 1, 2, 3, 6, 7} :=
  scenario_one_placement scenario_topology rfl rfl rfl rfl rfl

/-- C10 as stated fails: on the scenario topology the load CPU set is not
`{0, 1, 2, 3, 5, 6, 7}`, because CPU 5 is isolated and is left out. -/
theorem scenario_one_mask_excludes_cpu5 :
    ¬ (rt_cpu scenario_topology = 4 ∧
      load_cpuset scenario_topology = {0, 1, 2, 3, 5, 6, 7}) := by
  decide

/-! ## Stop signal set during a cycle -/

theorem rt_loop_cons_run (c : cycle_t) (rest : List cycle_t) (σ : sampler_t)
    (h : loop_cond c.should_exit σ.stats = true) :
    rt_loop (c :: rest) σ
      = rt_loop rest { stats := rt_cycle σ.stats c.latency, cycles := σ.cycles + 1 } := by
  rw [rt_loop, if_pos h]

theorem rt_loop_cons_exit (c : cycle_t) (rest : List cycle_t) (σ : sampler_t)
    (h : ¬ loop_cond c.should_exit σ.stats = true) :
    rt_loop (c :: rest) σ = { σ with stats := { σ.stats with running := 0 } } := by
  rw [rt_loop, if_neg h]

/-- Running the loop over a trace in two parts: if the loop is still running
after the first part, the second part continues from the state reached. -/
theorem rt_loop_append (pre rest : List cycle_t) :
    ∀ σ : sampler_t, σ.stats.running = 1 → (rt_loop pre σ).stats.running = 1 →
      rt_loop (pre ++ rest) σ = rt_loop rest (rt_loop pre σ) := by
  induction pre with
  | nil => intro σ _ _; rfl
  | cons c pre ih =>
    intro σ hrun hafter
    rw [List.cons_append]
    by_cases hc : loop_cond c.should_exit σ.stats = true
    · rw [rt_loop_cons_run c _ σ hc] at hafter ⊢
      rw [rt_loop_cons_run c _ σ hc]
      exact ih _ (by rw [rt_cycle_running]; exact hrun) hafter
    · rw [rt_loop_cons_exit c _ σ hc] at hafter
      have h01 : (0 : Int) = 1 := hafter
      omega

/-- The loop from a running state with room left, over a cycle that starts with
the stop signal clear and is followed by a check that reads it set: the cycle
is completed and then the loop is left. -/
theorem rt_loop_stop_after_cycle (σ : sampler_t) (latency latency2 : Int)
    (post : List cycle_t) (hroom : σ.stats.sample_count < MAX_SAMPLES) :
    rt_loop ({ should_exit := false, latency := latency }
        :: { should_exit := true, latency := latency2 } :: post) σ
      = { stats := { rt_cycle σ.stats latency with running := 0 },
          cycles := σ.cycles + 1 } := by
  have h1 : loop_cond false σ.stats = true := by
    unfold loop_cond
    simp only [Bool.not_false, Bool.true_and, decide_eq_true_eq]
    exact hroom
  have h2 : loop_cond true (rt_cycle σ.stats latency) = false := by
    unfold loop_cond
    rfl
  rw [rt_loop_cons_run _ _ σ h1, rt_loop_cons_exit _ _ _ (by rw [h2]; decide)]

/-- C11, as the code has it: when the stop signal is set during the sleep of a
cycle that has started, that cycle is completed, the next evaluation of the
loop condition leaves the loop, and no further cycle is started; the samples
stored before stay as they were, and the latency of the interrupted cycle is
itself recorded exactly when it is `> 0`. -/
theorem stop_during_sleep_completes_cycle (pre : List cycle_t) (latency latency2 : Int)
    (post : List cycle_t)
    (hrunning : (rt_loop pre sampler_start).stats.running = 1)
    (hroom : (rt_loop pre sampler_start).stats.sample_count < MAX_SAMPLES) :
    (rt_loop (pre ++ { should_exit := false, latency := latency }
        :: { should_exit := true, latency := latency2 } :: post) sampler_start).stats.running
      = 0 ∧
    (rt_loop (pre ++ { should_exit := false, latency := latency }
        :: { should_exit := true, latency := latency2 } :: post) sampler_start).cycles
      = (rt_loop pre sampler_start).cycles + 1 ∧
    (latency ≤ 0 →
      (rt_loop (pre ++ { should_exit := false, latency := latency }
          :: { should_exit := true, latency := latency2 } :: post) sampler_start).stats.sample_count
        = (rt_loop pre sampler_start).stats.sample_count ∧
      stored (rt_loop (pre ++ { should_exit := false, latency := latency }
          :: { should_exit := true, latency := latency2 } :: post) sampler_start).stats
        = stored (rt_loop pre sampler_start).stats) ∧
    (0 < latency →
      (rt_loop (pre ++ { should_exit := false, latency := latency }
          :: { should_exit := true, latency := latency2 } :: post) sampler_start).stats.sample_count
        = (rt_loop pre sampler_start).stats.sample_count + 1 ∧
      stored (rt_loop (pre ++ { should_exit := false, latency := latency }
          :: { should_exit := true, latency := latency2 } :: post) sampler_start).stats
        = stored (rt_loop pre sampler_start).stats ++ [latency]) := by
  rw [rt_loop_append pre _ sampler_start rfl hrunning,
    rt_loop_stop_after_cycle _ latency latency2 post hroom]
  refine ⟨rfl, rfl, ?_, ?_⟩
  · intro hl
    have hs : stored { rt_cycle (rt_loop pre sampler_start).stats latency with running := 0 }
        = stored (rt_cycle (rt_loop pre sampler_start).stats latency) := rfl
    rw [hs, rt_cycle_nonpos _ latency hl]
    exact ⟨rfl, rfl⟩
  · intro hl
    have hs : stored { rt_cycle (rt_loop pre sampler_start).stats latency with running := 0 }
        = stored (rt_cycle (rt_loop pre sampler_start).stats latency) := rfl
    rw [hs, rt_cycle_stored _ latency hl]
    refine ⟨?_, rfl⟩
    show (rt_cycle (rt_loop pre sampler_start).stats latency).sample_count = _
    rw [rt_cycle_count, if_pos hl]

theorem stop_during_sleep_completes_cycle_witness :
    (rt_loop (no_stop [3] ++ { should_exit := false, latency := 5 }
        :: { should_exit := true, latency := 0 } :: []) sampler_start).stats.running = 0 ∧
    (rt_loop (no_stop [3] ++ { should_exit := false, latency := 5 }
        :: { should_exit := true, latency := 0 } :: []) sampler_start).cycles
      = (rt_loop (no_stop [3]) sampler_start).cycles + 1 ∧
    (rt_loop (no_stop [3] ++ { should_exit := false, latency := 5 }
        :: { should_exit := true, latency := 0 } :: []) sampler_start).stats.sample_count
      = (rt_loop (no_stop [3]) sampler_start).stats.sample_count + 1 ∧
    stored (rt_loop (no_stop [3] ++ { should_exit := false, latency := 5 }
        :: { should_exit := true, latency := 0 } :: []) sampler_start).stats
      = stored (rt_loop (no_stop [3]) sampler_start).stats ++ [5] :=
  ⟨(stop_during_sleep_completes_cycle (no_stop [3]) 5 0 [] (by decide) (by decide)).1,
   (stop_during_sleep_completes_cycle (no_stop [3]) 5 0 [] (by decide) (by decide)).2.1,
   (stop_during_sleep_completes_cycle (no_stop [3]) 5 0 [] (by decide) (by decide)).2.2.2
     (by decide)⟩

/-- C11 as stated fails: after one recorded sample, a cycle that starts with
the stop signal clear, has the signal set during its sleep and measures latency
`5` is recorded, so after the loop exits `sample_count` is `2` and not the `1`
it was when the signal was set, and the stored samples are `3, 5` and not `3`. -/
theorem stop_during_sleep_records_sample :
    (rt_loop (no_stop [3]) sampler_start).stats.running = 1 ∧
    (rt_loop (no_stop [3]) sampler_start).stats.sample_count = 1 ∧
    stored (rt_loop (no_stop [3]) sampler_start).stats = [3] ∧
    (rt_loop (no_stop [3] ++ [{ should_exit := false, latency := 5 },
        { should_exit := true, latency := 0 }]) sampler_start).stats.running = 0 ∧
    (rt_loop (no_stop [3] ++ [{ should_exit := false, latency := 5 },
        { should_exit := true, latency := 0 }]) sampler_start).stats.sample_count = 2 ∧
    stored (rt_loop (no_stop [3] ++ [{ should_exit := false, latency := 5 },
        { should_exit := true, latency := 0 }]) sampler_start).stats = [3, 5] ∧
    ¬ ((rt_loop (no_stop [3] ++ [{ should_exit := false, latency := 5 },
          { should_exit := true, latency := 0 }]) sampler_start).stats.sample_count
        = (rt_loop (no_stop [3]) sampler_start).stats.sample_count ∧
      stored (rt_loop (no_stop [3] ++ [{ should_exit := false, latency := 5 },
          { should_exit := true, latency := 0 }]) sampler_start).stats
        = stored (rt_loop (no_stop [3]) sampler_start).stats) := by
  decide

end RtDemo
